import Mathlib

/-!
Shallow embedding of `src/deps/src/qmlwrap/listmodel.cpp` (the `qmlwrap::ListModel`
adapter of QML.jl).

Modelling conventions:
* Julia callables (role getters, role setters, the item constructor, the update
  hook) are Lean functions; the Julia backing array is a `List`.
* C++ `int` arithmetic is modelled with `Int` (no claim involves overflow).
* Out-of-range container accesses, and loops whose `i != bound` exit condition is
  unreachable (so that they run until an out-of-range access), are undefined
  behaviour in the C++ source; operations that can reach them return `Option`,
  and `none` marks that execution left the defined domain.
* Conversion between Julia values and `QVariant` (`convert_to_cpp` /
  `convert_to_julia` / `box`) is an external collaborator and is modelled as the
  identity.
* Qt signal emissions and begin/end notification calls are recorded as a list of
  `Event`s; GC pinning (`protect_from_gc` / `unprotect_from_gc`) is modelled by
  `PinModel` with callables named by arbitrary `Nat` tokens.
-/

namespace QmlListModel

/-- Notifications emitted by the model: the begin/end bracketing calls of
`QAbstractListModel` plus the `countChanged`, `dataChanged` and `rolesChanged`
signals, and the invocation of the host-supplied update hook (`do_update`). -/
inductive Event where
  | beginInsert (first last : Int)
  | endInsert
  | beginRemove (first last : Int)
  | endRemove
  | beginMove (first last dest : Int)
  | endMove
  | countChanged
  | dataChanged (top bottom : Int) (roles : List Int)
  | rolesChanged
  | updateHook
  deriving DecidableEq

/-- Models the save loop of `ListModel::move` (listmodel.cpp lines 217-220):
`for(i = 0; i != count; ++i) removed_elems[i] = m_array[from+i]` reads `cnt`
consecutive elements starting at `start`; `none` on an out-of-range read. -/
def saveLoop (l : List α) : Nat → Nat → Option (List α)
  | _, 0 => some []
  | start, cnt+1 =>
    match l[start]? with
    | none => none
    | some x =>
      match saveLoop l (start+1) cnt with
      | none => none
      | some rest => some (x :: rest)

/-- Models a single `m_array[i] = x` store: the Julia array write is in-bounds
checked in the model, `none` standing for an out-of-range write. -/
def setChecked (l : List α) (i : Nat) (x : α) : Option (List α) :=
  if i < l.length then some (l.set i x) else none

/-- Models the shift loop of `ListModel::move` (lines 222-225):
`for(i = from; i != to; ++i) m_array[i] = m_array[i+count]`, run for
`steps = to - from` iterations. -/
def shiftLoop (c : Nat) : List α → Nat → Nat → Option (List α)
  | l, _, 0 => some l
  | l, i, steps+1 =>
    match l[i + c]? with
    | none => none
    | some x =>
      match setChecked l i x with
      | none => none
      | some l1 => shiftLoop c l1 (i+1) steps

/-- Models the write-back loop of `ListModel::move` (lines 227-230):
`for(i = 0; i != count; ++i) m_array[to+i] = removed_elems[i]`. -/
def writeLoop : List α → Nat → List α → Option (List α)
  | l, _, [] => some l
  | l, i, x :: xs =>
    match setChecked l i x with
    | none => none
    | some l1 => writeLoop l1 (i+1) xs

/-- Models the normalisation of `(from, to, count)` performed by
`ListModel::move` when `to < from` (lines 197-203): `c = from - to;
std::swap(from, to); to = from + count; count = c`. -/
def normMove (f t c : Int) : Int × Int × Int :=
  if t < f then (t, t + c, f - t) else (f, t, c)

/-- Models the post-validation mutation phase of `ListModel::move`
(lines 213-230) on the normalised arguments, as a transformation of the backing
array: save the moved block, shift the intervening elements, write the block
back at its destination.  The C++ loops exit on `i != bound`; a bound below the
start index makes the loop run until an out-of-range access, hence the
arguments arrive here as the `Nat` images of validated non-negative values and
the negative/descending cases are mapped to `none` by `moveArray`. -/
def moveExecNat (l : List α) (F T C : Nat) : Option (List α) :=
  match saveLoop l F C with
  | none => none
  | some saved =>
    match shiftLoop C l F (T - F) with
    | none => none
    | some l1 => writeLoop l1 T saved

/-- Models `ListModel::move` (lines 192-235) as a transformation of the backing
array: the `from == to || count == 0` early return, the `to < from`
normalisation, the validation against the current size, and the mutation phase.
`none` marks executions whose loops leave the array bounds (undefined
behaviour); a rejected call returns the array unchanged. -/
def moveArray (l : List α) (f t c : Int) : Option (List α) :=
  if f = t ∨ c = 0 then some l
  else if (normMove f t c).1 < 0 ∨ (l.length : Int) ≤ (normMove f t c).1 ∨
      (normMove f t c).2.1 < 0 ∨ (l.length : Int) ≤ (normMove f t c).2.1 ∨
      (l.length : Int) < (normMove f t c).2.1 + (normMove f t c).2.2 then some l
  else if (normMove f t c).2.2 < 0 ∨ (normMove f t c).2.1 < (normMove f t c).1 then none
  else moveExecNat l (normMove f t c).1.toNat (normMove f t c).2.1.toNat
    (normMove f t c).2.2.toNat

/-- Holds exactly when `(from, to, count)` reaches the mutation phase of
`ListModel::move` on a store of size `n`: neither the silent early return
(line 194) nor the validation rejection (lines 205-209) fires. -/
def movePasses (n f t c : Int) : Bool :=
  if f = t ∨ c = 0 then false
  else if (normMove f t c).1 < 0 ∨ n ≤ (normMove f t c).1 ∨
      (normMove f t c).2.1 < 0 ∨ n ≤ (normMove f t c).2.1 ∨
      n < (normMove f t c).2.1 + (normMove f t c).2.2 then false
  else true

/-- Signature of a Julia role setter as invoked by `ListModel::setData`
(line 75): it receives the wrapped backing array, the boxed value and a
position, and yields the updated backing array. -/
def Setter (α V : Type) := List α → V → Int → List α

/-- State of a `qmlwrap::ListModel`: the backing array `m_array`, the role
registry (`m_rolenames`, `m_getters`, `m_setters`, kept as parallel
sequences exactly as in the C++), the optional constructor `m_constructor`,
the `m_custom_roles` flag, and whether an update hook `m_update_array` was
supplied. -/
structure LMState (α V : Type) where
  array : List α
  rolenames : List String
  getters : List (α → V)
  setters : List (Option (Setter α V))
  ctor : Option (List V → Option α)
  customRoles : Bool
  hasUpdate : Bool

/-- Models `ListModel::ListModel` (lines 10-20): one default role named
"string" whose getter is the builtin stringify callable `sOf` and whose setter
is null; no constructor; `m_custom_roles` initially false. -/
def LMState.init (sOf : α → V) (arr : List α) (hasUpd : Bool) : LMState α V :=
  { array := arr
    rolenames := ["string"]
    getters := [sOf]
    setters := [none]
    ctor := none
    customRoles := false
    hasUpdate := hasUpd }

/-- Models `ListModel::count` (lines 245-248). -/
def LMState.count (s : LMState α V) : Int := s.array.length

/-- Models `ListModel::rowCount` (lines 44-47). -/
def LMState.rowCount (s : LMState α V) : Int := s.array.length

/-- Models `ListModel::do_update()` (lines 400-406): the update hook runs when
present; only its invocation is observable here. -/
def LMState.updateEvents (s : LMState α V) : List Event :=
  if s.hasUpdate then [Event.updateHook] else []

/-- Models `ListModel::rolegetter` (lines 373-382): an out-of-range role id
logs a warning and falls back to the builtin stringify getter; otherwise
`m_getters[role]` is returned (`none` = out-of-range vector read, which the
in-sync registry never produces). -/
def LMState.rolegetter (s : LMState α V) (sOf : α → V) (role : Int) : Option (α → V) :=
  if role < 0 ∨ (s.rolenames.length : Int) ≤ role then some sOf
  else s.getters[role.toNat]?

/-- Models `ListModel::data` (lines 49-58), with value conversion as the
identity.  The outer `none` is undefined behaviour (a desynchronised registry);
the inner `none` is the empty `QVariant` returned for an out-of-range row. -/
def LMState.data (s : LMState α V) (sOf : α → V) (i role : Int) : Option (Option V) :=
  if i < 0 ∨ (s.array.length : Int) ≤ i then some none
  else
    match s.rolegetter sOf role, s.array[i.toNat]? with
    | some g, some x => some (some (g x))
    | _, _ => none

/-- Models `ListModel::rolesetter` (lines 384-392): the out-of-range branch
only logs a warning, and the function then unconditionally reads
`m_setters[role]`; an out-of-range `role` is therefore an out-of-bounds vector
access (`none` = undefined behaviour), not a returned null setter. -/
def LMState.rolesetter (s : LMState α V) (role : Int) : Option (Option (Setter α V)) :=
  if role < 0 then none else s.setters[role.toNat]?

/-- Models `ListModel::setData` (lines 65-84): bounds-check the row, fetch the
setter through `rolesetter`, invoke it with the wrapped array, the value and
the position `index.row() + 1`, then `do_update` and a single-cell
`dataChanged`.  Invoking a null setter throws and is caught (lines 79-83):
failure with no state change.  `none` = undefined behaviour inside
`rolesetter`. -/
def LMState.setData (s : LMState α V) (i : Int) (v : V) (role : Int) :
    Option (Bool × LMState α V × List Event) :=
  if i < 0 ∨ (s.array.length : Int) ≤ i then some (false, s, [])
  else
    match s.rolesetter role with
    | none => none
    | some none => some (false, s, [])
    | some (some f) =>
      some (true, { s with array := f s.array v (i + 1) },
        s.updateEvents ++ [Event.dataChanged i i [role]])

/-- Models `QHash<int, QByteArray>::key(name)` as used by
`ListModel::setProperty` (line 165): the id of the role whose name is `name`,
or the default-constructed key `0` when no role carries that name. -/
def LMState.nameKey (s : LMState α V) (name : String) : Int :=
  match s.rolenames.findIdx? (fun r => r == name) with
  | some i => (i : Int)
  | none => 0

/-- Models `ListModel::setProperty` (lines 163-166): resolve the property name
through the registry and delegate to `setData` (the C++ discards the returned
Bool; state and notifications are the observable part). -/
def LMState.setProperty (s : LMState α V) (i : Int) (name : String) (v : V) :
    Option (Bool × LMState α V × List Event) :=
  s.setData i v (s.nameKey name)

/-- Models `ListModel::append_list` (lines 91-128): a missing constructor or a
failed constructor invocation (`jl_call` returning null) aborts with no change;
otherwise begin-insert at the tail, push the constructed item, run the update
hook, end-insert, and emit `countChanged`. -/
def LMState.appendList (s : LMState α V) (args : List V) : LMState α V × List Event :=
  match s.ctor with
  | none => (s, [])
  | some construct =>
    match construct args with
    | none => (s, [])
    | some item =>
      ({ s with array := s.array ++ [item] },
        [Event.beginInsert (s.array.length : Int) (s.array.length : Int)] ++
          s.updateEvents ++ [Event.endInsert, Event.countChanged])

/-- Models `ListModel::move` (lines 192-235) on the model state, recording the
notifications: `beginMoveRows` is called with the normalised `from`,
`from + count - 1` and `to + count` (line 211), the hook runs after the
mutation, then `endMoveRows`.  `none` = undefined behaviour in the mutation
loops. -/
def LMState.move (s : LMState α V) (f t c : Int) : Option (LMState α V × List Event) :=
  match moveArray s.array f t c with
  | none => none
  | some arr =>
    if f = t ∨ c = 0 then some (s, [])
    else if movePasses (s.array.length : Int) f t c then
      some ({ s with array := arr },
        [Event.beginMove (normMove f t c).1 ((normMove f t c).1 + (normMove f t c).2.2 - 1)
            ((normMove f t c).2.1 + (normMove f t c).2.2)] ++
          s.updateEvents ++ [Event.endMove])
    else some (s, [])

/-- Models `ListModel::insert_list` (lines 157-161), and `ListModel::insert`
(lines 151-155) which reaches the same code through `append`: append the
record, then `move(m_array.size() - 1, index, 1)`, unconditionally. -/
def LMState.insertList (s : LMState α V) (index : Int) (args : List V) :
    Option (LMState α V × List Event) :=
  match s.appendList args with
  | (s1, ev1) =>
    match s1.move ((s1.array.length : Int) - 1) index 1 with
    | none => none
    | some (s2, ev2) => some (s2, ev1 ++ ev2)

/-- Models `ListModel::clear` (lines 237-243): `beginRemoveRows(0,
m_array.size())`, delete every element from the end, run the update hook,
`endRemoveRows`.  No `countChanged` is emitted. -/
def LMState.clear (s : LMState α V) : LMState α V × List Event :=
  ({ s with array := [] },
    [Event.beginRemove 0 (s.array.length : Int)] ++ s.updateEvents ++ [Event.endRemove])

/-- Models `ListModel::addrole` (lines 250-283): a duplicate name or a null
getter aborts with no change; otherwise, when no custom role exists yet, the
default registry is cleared (one-time default-to-custom transition), and the
role is pushed with `rolesChanged` emitted. -/
def LMState.addrole (s : LMState α V) (name : String) (getter : Option (α → V))
    (setter : Option (Setter α V)) : LMState α V × List Event :=
  if name ∈ s.rolenames then (s, [])
  else
    match getter with
    | none => (s, [])
    | some g =>
      let s1 := if s.customRoles then s else
        { s with rolenames := [], getters := [], setters := [], customRoles := true }
      ({ s1 with
          rolenames := s1.rolenames ++ [name]
          getters := s1.getters ++ [g]
          setters := s1.setters ++ [setter] }, [Event.rolesChanged])

/-- Models `ListModel::setconstructor` (lines 367-371): store the callable (it
is also pinned; see `setconstructorProtects`). -/
def LMState.setconstructor (s : LMState α V) (f : List V → Option α) : LMState α V :=
  { s with ctor := some f }

/-- GC-pin bookkeeping view of a live `ListModel`: the identities (arbitrary
`Nat` tokens) of the Julia values the model references — the backing array, the
optional update hook, the optional constructor, and the registered getters and
setters (a null setter is `none`). -/
structure PinModel where
  arrayId : Nat
  updateId : Option Nat
  ctorId : Option Nat
  getterIds : List Nat
  setterIds : List (Option Nat)
  deriving DecidableEq

/-- Models the `unprotect_from_gc` calls performed by `ListModel::~ListModel`
(lines 22-42): the backing array, the update hook when present, every entry of
`m_getters`, and every non-null entry of `m_setters`.  `m_constructor` does not
appear in the destructor. -/
def destructorUnprotects (m : PinModel) : List Nat :=
  [m.arrayId] ++ m.updateId.toList ++ m.getterIds ++ m.setterIds.filterMap id

/-- Models the `protect_from_gc` call performed by `ListModel::setconstructor`
(lines 367-371) on the stored constructor. -/
def setconstructorProtects (ctorId : Nat) : List Nat := [ctorId]

/-- Identity stringify callable used to instantiate the model at
`α = V = Int` in concrete witnesses. -/
def intId : Int → Int := fun n => n

/-- Concrete constructor callable for witnesses: builds the item from the first
positional argument. -/
def sampleCtor : List Int → Option Int := fun vs => vs.head?

/-- Concrete role setter for witnesses: stores the value at the 1-based
position it receives. -/
def writeSetter : Setter Int Int := fun arr v pos => arr.set (pos - 1).toNat v

/-- Fixture: a model over backing store `[10, 20, 30]` with no constructor. -/
def noCtorState : LMState Int Int := LMState.init intId [10, 20, 30] false

/-- Fixture: a model over backing store `[5]` with `sampleCtor` registered. -/
def sampleAppendState : LMState Int Int :=
  (LMState.init intId [5] false).setconstructor sampleCtor

/-- Fixture: a model over backing store `[5, 6]` with `sampleCtor`
registered. -/
def clearState : LMState Int Int :=
  (LMState.init intId [5, 6] false).setconstructor sampleCtor

/-- Fixture: a model with one custom role "a" (getter `intId`, setter
`writeSetter`) over backing store `[10]`. -/
def oneRoleState : LMState Int Int :=
  { array := [10]
    rolenames := ["a"]
    getters := [intId]
    setters := [some writeSetter]
    ctor := none
    customRoles := true
    hasUpdate := false }

/-! Helper lemmas: pointwise characterisation of the three mutation loops of
`ListModel::move` and of their composition. -/

theorem saveLoop_spec {α : Type} (l : List α) :
    ∀ cnt start : Nat, start + cnt ≤ l.length →
      ∃ r, saveLoop l start cnt = some r ∧ r.length = cnt ∧
        ∀ k, r[k]? = if k < cnt then l[start + k]? else none := by
  intro cnt
  induction cnt with
  | zero =>
    intro start _
    refine ⟨[], rfl, rfl, ?_⟩
    intro k
    simp
  | succ n ih =>
    intro start h
    have hs : start < l.length := by omega
    obtain ⟨r, hr, hlen, hget⟩ := ih (start + 1) (by omega)
    refine ⟨l[start] :: r, ?_, by simp [hlen], ?_⟩
    · simp only [saveLoop, List.getElem?_eq_getElem hs, hr]
    · intro k
      cases k with
      | zero =>
        rw [if_pos (by omega)]
        simp [List.getElem?_eq_getElem hs]
      | succ k =>
        rw [List.getElem?_cons_succ, hget k]
        by_cases hk : k < n
        · rw [if_pos hk, if_pos (by omega)]
          have : start + 1 + k = start + (k + 1) := by omega
          rw [this]
        · rw [if_neg hk, if_neg (by omega)]

theorem shiftLoop_spec {α : Type} (c : Nat) :
    ∀ (steps : Nat) (l : List α) (i : Nat), i + steps + c ≤ l.length →
      ∃ r, shiftLoop c l i steps = some r ∧ r.length = l.length ∧
        ∀ j, r[j]? = if i ≤ j ∧ j < i + steps then l[j + c]? else l[j]? := by
  intro steps
  induction steps with
  | zero =>
    intro l i _
    refine ⟨l, rfl, rfl, ?_⟩
    intro j
    rw [if_neg (by omega)]
  | succ n ih =>
    intro l i h
    have hic : i + c < l.length := by omega
    have hi : i < l.length := by omega
    obtain ⟨r, hr, hlen, hget⟩ := ih (l.set i l[i + c]) (i + 1)
      (by rw [List.length_set]; omega)
    refine ⟨r, ?_, by rw [hlen, List.length_set], ?_⟩
    · simp only [shiftLoop, List.getElem?_eq_getElem hic, setChecked, if_pos hi, hr]
    · intro j
      rw [hget j]
      by_cases hj1 : i + 1 ≤ j ∧ j < i + 1 + n
      · rw [if_pos hj1, if_pos (by omega)]
        exact List.getElem?_set_ne (by omega)
      · rw [if_neg hj1]
        by_cases hj2 : j = i
        · subst hj2
          rw [if_pos (by omega), List.getElem?_set_eq_of_lt _ hi]
          exact (List.getElem?_eq_getElem hic).symm
        · rw [if_neg (by omega), List.getElem?_set_ne (by omega)]

theorem writeLoop_spec {α : Type} :
    ∀ (xs l : List α) (i : Nat), i + xs.length ≤ l.length →
      ∃ r, writeLoop l i xs = some r ∧ r.length = l.length ∧
        ∀ j, r[j]? = if i ≤ j ∧ j < i + xs.length then xs[j - i]? else l[j]? := by
  intro xs
  induction xs with
  | nil =>
    intro l i _
    refine ⟨l, rfl, rfl, ?_⟩
    intro j
    rw [if_neg (by simp only [List.length_nil]; omega)]
  | cons x xs ih =>
    intro l i h
    have hlc : (x :: xs).length = xs.length + 1 := by simp
    have hi : i < l.length := by omega
    obtain ⟨r, hr, hlen, hget⟩ := ih (l.set i x) (i + 1) (by rw [List.length_set]; omega)
    refine ⟨r, ?_, by rw [hlen, List.length_set], ?_⟩
    · simp only [writeLoop, setChecked, if_pos hi, hr]
    · intro j
      rw [hget j]
      by_cases hj1 : i + 1 ≤ j ∧ j < i + 1 + xs.length
      · rw [if_pos hj1, if_pos (by rw [hlc]; omega)]
        have h1 : j - i = (j - (i + 1)) + 1 := by omega
        rw [h1, List.getElem?_cons_succ]
      · rw [if_neg hj1]
        by_cases hj2 : j = i
        · subst hj2
          rw [if_pos (by rw [hlc]; omega), List.getElem?_set_eq_of_lt x hi]
          simp
        · rw [if_neg (by rw [hlc]; omega), List.getElem?_set_ne (by omega)]

theorem moveExecNat_spec {α : Type} (l : List α) (F T C : Nat)
    (hFT : F ≤ T) (hTC : T + C ≤ l.length) :
    ∃ r, moveExecNat l F T C = some r ∧ r.length = l.length ∧
      ∀ j, r[j]? =
        if T ≤ j ∧ j < T + C then l[j - T + F]?
        else if F ≤ j ∧ j < T then l[j + C]?
        else l[j]? := by
  obtain ⟨saved, hsv, hsvlen, hsvget⟩ := saveLoop_spec l C F (by omega)
  obtain ⟨l1, hsh, hshlen, hshget⟩ := shiftLoop_spec C (T - F) l F (by omega)
  obtain ⟨r, hw, hwlen, hwget⟩ := writeLoop_spec saved l1 T (by rw [hsvlen, hshlen]; omega)
  refine ⟨r, ?_, by rw [hwlen, hshlen], ?_⟩
  · simp only [moveExecNat, hsv, hsh, hw]
  · intro j
    rw [hwget j, hsvlen]
    by_cases hT : T ≤ j ∧ j < T + C
    · rw [if_pos hT, if_pos hT, hsvget (j - T), if_pos (by omega)]
      have : F + (j - T) = j - T + F := by omega
      rw [this]
    · rw [if_neg hT, if_neg hT, hshget j]
      have : F + (T - F) = T := by omega
      rw [this]

theorem moveExecNat_round_trip {α : Type} (l : List α) (F T C : Nat)
    (h1 : F < T) (h2 : T + C ≤ l.length) (h3 : 0 < C) :
    ∃ r, moveExecNat l F T C = some r ∧ r.length = l.length ∧
      moveExecNat r F (F + C) (T - F) = some l := by
  obtain ⟨r1, e1, len1, get1⟩ := moveExecNat_spec l F T C (by omega) h2
  obtain ⟨r2, e2, len2, get2⟩ := moveExecNat_spec r1 F (F + C) (T - F) (by omega)
    (by rw [len1]; omega)
  have hr2 : r2 = l := by
    apply List.ext_getElem?
    intro j
    rw [get2 j]
    by_cases hA : F + C ≤ j ∧ j < F + C + (T - F)
    · rw [if_pos hA, get1 (j - (F + C) + F), if_neg (by omega), if_pos (by omega)]
      have : j - (F + C) + F + C = j := by omega
      rw [this]
    · rw [if_neg hA]
      by_cases hB : F ≤ j ∧ j < F + C
      · rw [if_pos hB, get1 (j + (T - F)), if_pos (by omega)]
        have : j + (T - F) - T + F = j := by omega
        rw [this]
      · rw [if_neg hB, get1 j, if_neg (by omega), if_neg (by omega)]
  refine ⟨r1, e1, len1, ?_⟩
  rw [e2, hr2]

theorem movePasses_true_iff (n f t c : Int) :
    movePasses n f t c = true ↔
      ¬(f = t ∨ c = 0) ∧
      ¬((normMove f t c).1 < 0 ∨ n ≤ (normMove f t c).1 ∨ (normMove f t c).2.1 < 0 ∨
        n ≤ (normMove f t c).2.1 ∨ n < (normMove f t c).2.1 + (normMove f t c).2.2) := by
  unfold movePasses
  split_ifs with hA hB
  · exact iff_of_false (by simp) (fun h => h.1 hA)
  · exact iff_of_false (by simp) (fun h => h.2 hB)
  · exact iff_of_true rfl ⟨hA, hB⟩

theorem moveArray_eq_exec {α : Type} (l : List α) (f t c : Int)
    (h1 : ¬(f = t ∨ c = 0))
    (h2 : ¬((normMove f t c).1 < 0 ∨ (l.length : Int) ≤ (normMove f t c).1 ∨
      (normMove f t c).2.1 < 0 ∨ (l.length : Int) ≤ (normMove f t c).2.1 ∨
      (l.length : Int) < (normMove f t c).2.1 + (normMove f t c).2.2))
    (h3 : ¬((normMove f t c).2.2 < 0 ∨ (normMove f t c).2.1 < (normMove f t c).1)) :
    moveArray l f t c = moveExecNat l (normMove f t c).1.toNat (normMove f t c).2.1.toNat
      (normMove f t c).2.2.toNat := by
  unfold moveArray
  rw [if_neg h1, if_neg h2, if_neg h3]

theorem moveArray_pos_pass {α : Type} (l : List α) (f t c : Int) (hc : 0 < c)
    (hpass : movePasses (l.length : Int) f t c = true) :
    ∃ r, moveArray l f t c = some r ∧ r.length = l.length ∧ moveArray r t f c = some l := by
  obtain ⟨h1, h2⟩ := (movePasses_true_iff (l.length : Int) f t c).mp hpass
  have hne : f ≠ t := fun h => h1 (Or.inl h)
  by_cases htf : t < f
  · have hn : normMove f t c = (t, t + c, f - t) := if_pos htf
    have h2p := h2
    rw [hn] at h2p
    push_neg at h2p
    have k1 : (0 : Int) ≤ t := h2p.1
    have k2 : t < (l.length : Int) := h2p.2.1
    have k3 : (0 : Int) ≤ t + c := h2p.2.2.1
    have k4 : t + c < (l.length : Int) := h2p.2.2.2.1
    have k5 : t + c + (f - t) ≤ (l.length : Int) := h2p.2.2.2.2
    obtain ⟨r, he, hlen, hrt⟩ :=
      moveExecNat_round_trip l t.toNat (t + c).toNat (f - t).toNat
        (by omega) (by omega) (by omega)
    have e1 : moveArray l f t c = moveExecNat l t.toNat (t + c).toNat (f - t).toNat := by
      have h3 : ¬((normMove f t c).2.2 < 0 ∨ (normMove f t c).2.1 < (normMove f t c).1) := by
        rw [hn]
        dsimp only
        omega
      have e := moveArray_eq_exec l f t c h1 h2 h3
      rw [hn] at e
      exact e
    have hn2 : normMove t f c = (t, f, c) := if_neg (by omega)
    have e2 : moveArray r t f c = moveExecNat r t.toNat f.toNat c.toNat := by
      have hb1 : ¬(t = f ∨ c = 0) := by
        rintro (h | h) <;> omega
      have hb2 : ¬((normMove t f c).1 < 0 ∨ (r.length : Int) ≤ (normMove t f c).1 ∨
          (normMove t f c).2.1 < 0 ∨ (r.length : Int) ≤ (normMove t f c).2.1 ∨
          (r.length : Int) < (normMove t f c).2.1 + (normMove t f c).2.2) := by
        rw [hn2, hlen]
        dsimp only
        omega
      have hb3 : ¬((normMove t f c).2.2 < 0 ∨ (normMove t f c).2.1 < (normMove t f c).1) := by
        rw [hn2]
        dsimp only
        omega
      have e := moveArray_eq_exec r t f c hb1 hb2 hb3
      rw [hn2] at e
      exact e
    have ha : t.toNat + (f - t).toNat = f.toNat := by omega
    have hb : (t + c).toNat - t.toNat = c.toNat := by omega
    rw [ha, hb] at hrt
    exact ⟨r, by rw [e1, he], hlen, by rw [e2, hrt]⟩
  · have hft : f < t := by omega
    have hn : normMove f t c = (f, t, c) := if_neg htf
    have h2p := h2
    rw [hn] at h2p
    push_neg at h2p
    have k1 : (0 : Int) ≤ f := h2p.1
    have k2 : f < (l.length : Int) := h2p.2.1
    have k3 : (0 : Int) ≤ t := h2p.2.2.1
    have k4 : t < (l.length : Int) := h2p.2.2.2.1
    have k5 : t + c ≤ (l.length : Int) := h2p.2.2.2.2
    obtain ⟨r, he, hlen, hrt⟩ :=
      moveExecNat_round_trip l f.toNat t.toNat c.toNat (by omega) (by omega) (by omega)
    have e1 : moveArray l f t c = moveExecNat l f.toNat t.toNat c.toNat := by
      have h3 : ¬((normMove f t c).2.2 < 0 ∨ (normMove f t c).2.1 < (normMove f t c).1) := by
        rw [hn]
        dsimp only
        omega
      have e := moveArray_eq_exec l f t c h1 h2 h3
      rw [hn] at e
      exact e
    have hn2 : normMove t f c = (f, f + c, t - f) := if_pos hft
    have e2 : moveArray r t f c = moveExecNat r f.toNat (f + c).toNat (t - f).toNat := by
      have hb1 : ¬(t = f ∨ c = 0) := by
        rintro (h | h) <;> omega
      have hb2 : ¬((normMove t f c).1 < 0 ∨ (r.length : Int) ≤ (normMove t f c).1 ∨
          (normMove t f c).2.1 < 0 ∨ (r.length : Int) ≤ (normMove t f c).2.1 ∨
          (r.length : Int) < (normMove t f c).2.1 + (normMove t f c).2.2) := by
        rw [hn2, hlen]
        dsimp only
        omega
      have hb3 : ¬((normMove t f c).2.2 < 0 ∨ (normMove t f c).2.1 < (normMove t f c).1) := by
        rw [hn2]
        dsimp only
        omega
      have e := moveArray_eq_exec r t f c hb1 hb2 hb3
      rw [hn2] at e
      exact e
    have ha : (f + c).toNat = f.toNat + c.toNat := by omega
    have hb : (t - f).toNat = t.toNat - f.toNat := by omega
    rw [ha, hb] at e2
    exact ⟨r, by rw [e1, he], hlen, by rw [e2, hrt]⟩

/-! Claim theorems. -/

/-- C1 (code bug witness): `insert` is `append` followed unconditionally by
`move(m_array.size() - 1, index, 1)`, so when the constructor precondition
fails (`m_constructor == nullptr`) the aborted append is still followed by a
real move of the last existing element: on backing store `[10, 20, 30]`,
`insert(0, record)` reorders the store to `[30, 10, 20]` instead of leaving it
unchanged. -/
theorem insert_without_constructor_mutates :
    noCtorState.ctor = none ∧
    (noCtorState.insertList 0 []).map (fun r => r.1.array) = some [30, 10, 20] := by
  constructor
  · rfl
  · rfl

/-- C2: for every backing store and `from`, `to`, `count > 0` describing
non-overlapping ranges that pass `move`'s validation, `move(from, to, count)`
followed by `move(to, from, count)` restores the original element order —
including tail-adjacent moves whose destination block ends at the last
position. -/
theorem move_round_trip {α : Type} (l : List α) (f t c : Int) (hc : 0 < c)
    (hnov : f + c ≤ t ∨ t + c ≤ f)
    (hpass : movePasses (l.length : Int) f t c = true) :
    (moveArray l f t c).bind (fun l1 => moveArray l1 t f c) = some l := by
  obtain ⟨r, h1, _, h3⟩ := moveArray_pos_pass l f t c hc hpass
  rw [h1, Option.some_bind, h3]

/-- Witness for C2 at the tail-adjacent input `from = 0`, `to = 2`, `count = 1`
on `[10, 20, 30]` (destination block ends at the last position). -/
theorem move_round_trip_witness :
    0 < (1 : Int) ∧ ((0 : Int) + 1 ≤ 2 ∨ (2 : Int) + 1 ≤ 0) ∧
    movePasses 3 0 2 1 = true ∧
    (moveArray ([10, 20, 30] : List Int) 0 2 1).bind (fun l1 => moveArray l1 2 0 1) =
      some [10, 20, 30] :=
  ⟨by decide, Or.inl (by decide), by decide,
    move_round_trip [10, 20, 30] 0 2 1 (by decide) (Or.inl (by decide)) (by decide)⟩

/-- Counterexample for C4: `(from, to, count) = (0, 2, -1)` on a 3-element
store passes `move`'s validation (no computed bound exceeds the backing size),
yet the save loop, whose `i != count` exit condition is unreachable for
negative `count`, leaves the array bounds (modelled as `none`): the
combination is neither rejected nor executed in range. -/
theorem move_negative_count_passes_validation :
    movePasses 3 0 2 (-1) = true ∧ moveArray ([10, 20, 30] : List Int) 0 2 (-1) = none := by
  constructor
  · decide
  · rfl

/-- C4 (amended): every combination rejected by `move`'s validation is a pure
no-op, and for `count > 0` every combination that passes validation completes
with all save/shift/write accesses in range; the in-range guarantee does not
extend to negative `count` with `from ≠ to`, which can pass validation and
drive the loops out of range (see the counterexample). -/
theorem move_validation_sound {α : Type} (l : List α) (f t c : Int) :
    (movePasses (l.length : Int) f t c = false → moveArray l f t c = some l) ∧
    (0 < c → movePasses (l.length : Int) f t c = true →
      ∃ r, moveArray l f t c = some r ∧ r.length = l.length) := by
  constructor
  · intro hfail
    unfold moveArray
    by_cases hA : f = t ∨ c = 0
    · rw [if_pos hA]
    · by_cases hB : (normMove f t c).1 < 0 ∨ (l.length : Int) ≤ (normMove f t c).1 ∨
          (normMove f t c).2.1 < 0 ∨ (l.length : Int) ≤ (normMove f t c).2.1 ∨
          (l.length : Int) < (normMove f t c).2.1 + (normMove f t c).2.2
      · rw [if_neg hA, if_pos hB]
      · exact absurd ((movePasses_true_iff (l.length : Int) f t c).mpr ⟨hA, hB⟩)
          (by rw [hfail]; simp)
  · intro hc hpass
    obtain ⟨r, h1, h2, _⟩ := moveArray_pos_pass l f t c hc hpass
    exact ⟨r, h1, h2⟩

/-- Witness for C4 (amended): `(0, 2, 5)` fails validation on a 3-element store
and is a no-op; `(0, 2, 1)` passes and completes in range. -/
theorem move_validation_sound_witness :
    moveArray ([10, 20, 30] : List Int) 0 2 5 = some [10, 20, 30] ∧
    ∃ r, moveArray ([10, 20, 30] : List Int) 0 2 1 = some r ∧
      r.length = ([10, 20, 30] : List Int).length :=
  ⟨(move_validation_sound [10, 20, 30] 0 2 5).1 (by decide),
    (move_validation_sound [10, 20, 30] 0 2 1).2 (by decide) (by decide)⟩

/-- C5 (code bug witness): for a role id outside the registry, `rolesetter`
logs "returning null setter" but does not return early — it falls through to
`m_setters[role]`, an out-of-bounds vector access (`none` in the model) — and
`setData` on a valid row with such a role id reaches that access instead of
failing with the store untouched. -/
theorem rolesetter_out_of_range_reads_oob :
    (LMState.init intId [7] false).rolesetter 5 = none ∧
    (LMState.init intId [7] false).setData 0 99 5 = none := by
  constructor
  · rfl
  · rfl

/-- C8 (code bug witness): the destructor unprotects the backing array, the
update hook, every getter and every non-null setter, but never the constructor
pinned by `setconstructor`: with array id 0, default getter id 1 and
constructor id 2, the destructor releases the pin on 2 zero times rather than
exactly once. -/
theorem destructor_skips_constructor_pin :
    (setconstructorProtects 2).count 2 = 1 ∧
    (destructorUnprotects ⟨0, none, some 2, [1], [none]⟩).count 2 = 0 := by
  constructor
  · rfl
  · rfl

/-- Helper: `data` on a valid row and a registered role returns the role's
getter applied to the element at the (0-based) row. -/
theorem data_getter {α V : Type} (sOf : α → V) (s2 : LMState α V) (i r : Nat) (x : α)
    (hx : s2.array[i]? = some x) (hi : i < s2.array.length) (hr : r < s2.rolenames.length)
    (hg : r < s2.getters.length) :
    s2.data sOf (i : Int) (r : Int) = some (some (s2.getters[r] x)) := by
  unfold LMState.data LMState.rolegetter
  rw [if_neg (by omega), if_neg (by omega)]
  simp only [Int.toNat_natCast]
  rw [List.getElem?_eq_getElem hg, hx]

/-- C3: with a registered constructor and a record it accepts, `append`
increases `count()` by exactly one, `rowCount()` equals the new `count()`, and
for every registered role, `data(lastIndex, role)` is that role's getter
applied to the item returned by the constructor. -/
theorem append_spec {α V : Type} (sOf : α → V) (s : LMState α V)
    (construct : List V → Option α) (args : List V) (item : α)
    (hctor : s.ctor = some construct) (hitem : construct args = some item)
    (hlen : s.getters.length = s.rolenames.length) :
    (s.appendList args).1.count = s.count + 1 ∧
    (s.appendList args).1.rowCount = (s.appendList args).1.count ∧
    ∀ r : Nat, r < s.rolenames.length →
      ∃ g, s.getters[r]? = some g ∧
        (s.appendList args).1.data sOf s.count (r : Int) = some (some (g item)) := by
  have happ : (s.appendList args).1 = { s with array := s.array ++ [item] } := by
    simp [LMState.appendList, hctor, hitem]
  rw [happ]
  refine ⟨?_, rfl, ?_⟩
  · simp [LMState.count]
  · intro r hr
    have hrg : r < s.getters.length := by omega
    refine ⟨s.getters[r], List.getElem?_eq_getElem hrg, ?_⟩
    have hres := data_getter sOf { s with array := s.array ++ [item] } s.array.length r item
      (by simpa using List.getElem?_concat_length s.array item)
      (by simp)
      hr
      hrg
    have hcnt : s.count = ((s.array.length : Nat) : Int) := rfl
    rw [hcnt, hres]

/-- Witness for C3 on `sampleAppendState` (store `[5]`, constructor
`sampleCtor`), appending the record `[7]`. -/
theorem append_spec_witness :
    (sampleAppendState.appendList [7]).1.count = sampleAppendState.count + 1 ∧
    (sampleAppendState.appendList [7]).1.rowCount = (sampleAppendState.appendList [7]).1.count ∧
    ∃ g, sampleAppendState.getters[0]? = some g ∧
      (sampleAppendState.appendList [7]).1.data intId sampleAppendState.count (0 : Int) =
        some (some (g 7)) := by
  have h := append_spec intId sampleAppendState sampleCtor [7] 7 rfl rfl rfl
  exact ⟨h.1, h.2.1, h.2.2 0 (by decide)⟩

/-- Counterexample for C6: on a 2-item model, `clear` emits begin-remove over
rows 0..2 — one past the last valid row 1, not "exactly the full current range
of valid rows" — and never emits `countChanged`. -/
theorem clear_trace_counterexample :
    ((LMState.init intId [10, 20] false).clear).2 =
      [Event.beginRemove 0 2, Event.endRemove] ∧
    Event.countChanged ∉ ((LMState.init intId [10, 20] false).clear).2 := by
  constructor
  · rfl
  · decide

/-- C6 (amended): `clear` empties the store (`count() = 0`), bracketing the
truncation and the update hook with begin-remove/end-remove, but
`beginRemoveRows` covers `[0, K]` — one past the last valid row of the
`K`-item model — and no `countChanged` is emitted; a subsequent `append` of a
valid record brings `count()` to 1. -/
theorem clear_behavior {α V : Type} (s : LMState α V)
    (construct : List V → Option α) (args : List V) (item : α)
    (hctor : s.ctor = some construct) (hitem : construct args = some item) :
    (s.clear).1.count = 0 ∧
    (s.clear).2 = [Event.beginRemove 0 s.count] ++ s.updateEvents ++ [Event.endRemove] ∧
    Event.countChanged ∉ (s.clear).2 ∧
    ((s.clear).1.appendList args).1.count = 1 := by
  refine ⟨rfl, rfl, ?_, ?_⟩
  · cases h : s.hasUpdate <;> simp [LMState.clear, LMState.updateEvents, h]
  · simp [LMState.clear, LMState.appendList, hctor, hitem, LMState.count]

/-- Witness for C6 (amended) on `clearState` (store `[5, 6]`, constructor
`sampleCtor`). -/
theorem clear_behavior_witness :
    (clearState.clear).1.count = 0 ∧ ((clearState.clear).1.appendList [7]).1.count = 1 := by
  have h := clear_behavior clearState sampleCtor [7] 7 rfl rfl
  exact ⟨h.1, h.2.2.2⟩

/-- Counterexample for C7: on `oneRoleState` (single role "a" with a real
setter), the unregistered name "zzz" resolves to role id 0, so
`setProperty(0, "zzz", 99)` reports success and overwrites the backing item —
it does not take `setData`'s out-of-range failure path. -/
theorem setProperty_unknown_name_mutates :
    (oneRoleState.setProperty 0 "zzz" 99).map (fun r => (r.1, r.2.1.array)) =
      some (true, [99]) := by
  rfl

/-- C7 (amended): a property name with no registered role resolves to role
id 0 — the default-constructed `QHash` key — so `setProperty` delegates to
`setData` with role 0, not with an out-of-range role. -/
theorem setProperty_unknown_name_is_role_zero {α V : Type} (s : LMState α V)
    (i : Int) (name : String) (v : V) (hname : name ∉ s.rolenames) :
    s.setProperty i name v = s.setData i v 0 := by
  unfold LMState.setProperty LMState.nameKey
  have hfind : s.rolenames.findIdx? (fun r => r == name) = none := by
    rw [List.findIdx?_eq_none_iff]
    intro x hx
    rw [beq_eq_false_iff_ne]
    rintro rfl
    exact hname hx
  rw [hfind]

/-- Witness for C7 (amended): "zzz" is not a role of `oneRoleState`. -/
theorem setProperty_unknown_name_witness :
    oneRoleState.setProperty 0 "zzz" 99 = oneRoleState.setData 0 99 0 :=
  setProperty_unknown_name_is_role_zero oneRoleState 0 "zzz" 99 (by decide)

/-- C9: the write path hands the role setter the 1-based position `index + 1`
(`setData`, line 75) while the read path applies the role getter to the
0-based element `m_array[index]` (`data`, line 56): the write position is
offset by one relative to the read index. -/
theorem setData_one_based_getter_zero_based {α V : Type} (sOf : α → V)
    (s : LMState α V) (i r : Int) (v : V) (f : Setter α V) (g : α → V) (x : α)
    (hi0 : 0 ≤ i) (hin : i < (s.array.length : Int))
    (hr0 : 0 ≤ r) (hrn : r < (s.rolenames.length : Int))
    (hf : s.setters[r.toNat]? = some (some f))
    (hg : s.getters[r.toNat]? = some g)
    (hx : s.array[i.toNat]? = some x) :
    s.setData i v r =
      some (true, { s with array := f s.array v (i + 1) },
        s.updateEvents ++ [Event.dataChanged i i [r]]) ∧
    s.data sOf i r = some (some (g x)) := by
  constructor
  · unfold LMState.setData LMState.rolesetter
    rw [if_neg (by omega), if_neg (by omega), hf]
  · unfold LMState.data LMState.rolegetter
    rw [if_neg (by omega), if_neg (by omega), hg, hx]

/-- Witness for C9 on `oneRoleState`: writing row 0 through role 0 invokes
`writeSetter` at position 1; reading row 0 applies `intId` to element 10. -/
theorem setData_one_based_witness :
    oneRoleState.setData 0 99 0 =
      some (true, { oneRoleState with array := writeSetter oneRoleState.array 99 (0 + 1) },
        oneRoleState.updateEvents ++ [Event.dataChanged 0 0 [0]]) ∧
    oneRoleState.data intId 0 0 = some (some (intId 10)) :=
  setData_one_based_getter_zero_based intId oneRoleState 0 0 99 writeSetter intId 10
    (by decide) (by decide) (by decide) (by decide) rfl rfl rfl

/-- C10: `addrole` checks the new name for collision against the current
registry before the one-time default-to-custom transition, so a first custom
`addrole` with the default role's name "string" aborts as a duplicate and the
default role set is not replaced by that call. -/
theorem addrole_default_name_collision {α V : Type} (s : LMState α V)
    (getter : Option (α → V)) (setter : Option (Setter α V))
    (hdefault : s.rolenames = ["string"]) (hcustom : s.customRoles = false) :
    s.addrole "string" getter setter = (s, []) := by
  unfold LMState.addrole
  rw [hdefault]
  rw [if_pos (by simp)]

/-- Witness for C10 on a freshly constructed model. -/
theorem addrole_default_name_witness :
    (LMState.init intId ([] : List Int) false).addrole "string" (some intId) none =
      (LMState.init intId ([] : List Int) false, []) :=
  addrole_default_name_collision (LMState.init intId [] false) (some intId) none rfl rfl

end QmlListModel
